import Mathlib

/-!
Verification development for the Hyperliquid perps ETL pipeline
(`hyperliquid_perps_to_dune.py`, `hl_perps_to_dune.py`,
`hl_perps_append_snapshot.py`, `hl_perps_snapshot_to_dune.py`,
`hl_perps_backfill_from_csv_ci.py`).

The Python scripts are shallowly embedded: JSON values become the inductive
`JVal`, Python `None` becomes `Option.none`, exceptions become `Option`/`Except`
failures, and wall-clock reads become explicit clock parameters.  Numeric
values are modelled as exact decimal fractions `Dec` (mantissa over a power of
ten); Python floats on these payloads are decimal-string encoded and small, so
the exact-decimal idealisation is used throughout (binary rounding of IEEE
doubles is not modelled).
-/

/-- Power of ten as an integer, by structural recursion so the kernel can
evaluate it. -/
def pow10 : Nat → Int
  | 0 => 1
  | n + 1 => 10 * pow10 n

/-- An exact decimal number: the value denoted is `m / 10 ^ e`.  This models
the numeric values flowing through the pipeline (JSON numbers and the results
of Python `float()` on decimal strings). -/
structure Dec where
  m : Int
  e : Nat
deriving DecidableEq, Repr

/-- Addition of exact decimals by rescaling to the larger exponent (models
Python float addition on decimally-representable values). -/
def decAdd (a b : Dec) : Dec :=
  if a.e ≤ b.e then ⟨a.m * pow10 (b.e - a.e) + b.m, b.e⟩
  else ⟨a.m + b.m * pow10 (a.e - b.e), a.e⟩

/-- Fold the digit characters of a numeral into a natural number. -/
def digitsToNat (cs : List Char) : Nat :=
  cs.foldl (fun a c => a * 10 + (c.toNat - 48)) 0

/-- Core of the decimal-string grammar: digits with an optional single point,
needing at least one digit overall (`"10"`, `"1000.5"`, `".5"`, `"1."`). -/
def parseDecCore (cs : List Char) : Option Dec :=
  let ip := cs.takeWhile (·.isDigit)
  let rest := cs.dropWhile (·.isDigit)
  match rest with
  | [] => if ip.isEmpty then none else some ⟨digitsToNat ip, 0⟩
  | '.' :: fr =>
    if fr.all (·.isDigit) && !(ip.isEmpty && fr.isEmpty) then
      some ⟨(digitsToNat ip) * pow10 fr.length + digitsToNat fr, fr.length⟩
    else none
  | _ => none

/-- Model of Python `float()` on the plain decimal-literal strings these
payloads carry; an optional sign followed by digits and an optional point.
Exotic float syntax (exponents, `inf`, `nan`) is treated as unparseable. -/
def parseDec (s : String) : Option Dec :=
  match s.toList with
  | '+' :: cs => parseDecCore cs
  | '-' :: cs => (parseDecCore cs).map (fun d => ⟨-d.m, d.e⟩)
  | cs => parseDecCore cs

/-- Model of Python `int()` on strings: optional sign then digits only. -/
def parseIntStr (s : String) : Option Int :=
  let core : List Char → Option Int := fun cs =>
    if cs.isEmpty || !cs.all (·.isDigit) then none else some (digitsToNat cs)
  match s.toList with
  | '+' :: cs => core cs
  | '-' :: cs => (core cs).map Neg.neg
  | cs => core cs

/-- JSON values as decoded by `json.loads`: null, numbers, strings, booleans,
arrays and objects (objects as association lists with distinct keys). -/
inductive JVal where
  | jnull
  | jnum (d : Dec)
  | jstr (s : String)
  | jbool (b : Bool)
  | jarr (elems : List JVal)
  | jobj (fields : List (String × JVal))

/-- A decoded JSON object body (the `fields` of a `JVal.jobj`). -/
abbrev Obj := List (String × JVal)

/-- Python `d.get(k)` / `d[k]` on a decoded JSON object: `none` when the key
is absent. -/
def lookupJ (d : Obj) (k : String) : Option JVal :=
  (d.find? (fun p => p.1 == k)).map Prod.snd

/-- Python truthiness of a decoded JSON value: `None`, `0`, `""`, `False` and
empty containers are falsy, everything else truthy. -/
def truthy : JVal → Bool
  | .jnull => false
  | .jnum d => !(d.m == 0)
  | .jstr s => !(s == "")
  | .jbool b => b
  | .jarr elems => !elems.isEmpty
  | .jobj fields => !fields.isEmpty

/-- Python `x or y` on an optional JSON value (`none` models Python `None`):
keeps `x` when it is truthy, otherwise evaluates to `y`. -/
def pyOr (x y : Option JVal) : Option JVal :=
  match x with
  | none => y
  | some v => if truthy v then some v else y

/-- Embeds `_first_present` (hyperliquid_perps_to_dune.py:132-136): the first
key of `keys` that is present in `d` with a non-null value wins. -/
def first_present (d : Obj) : List String → Option JVal
  | [] => none
  | k :: ks =>
    match lookupJ d k with
    | some .jnull => first_present d ks
    | some v => some v
    | none => first_present d ks

/-- The five snapshot counters hunted by `pick_snapshot`. -/
inductive SnapField where
  | v24
  | v7
  | v30
  | oi
  | total
deriving DecidableEq

/-- A snapshot record: each of the five counters is either resolved to a JSON
value or still Python `None`. -/
abbrev Snap := SnapField → Option JVal

/-- The alias list scanned for each snapshot field
(hyperliquid_perps_to_dune.py:152-156). -/
def aliasesOf : SnapField → List String
  | .v24 => ["volume24h", "volume24hUsd", "vol24h"]
  | .v7 => ["volume7d", "volume7dUsd", "vol7d"]
  | .v30 => ["volume30d", "volume30dUsd", "vol30d"]
  | .oi => ["openInterest", "openInterestUsd", "oi", "oiUsd"]
  | .total => ["totalVolume", "totalVolumeUsd", "lifetimeVolume"]

/-- The blob pools scanned by `pick_snapshot`: the payload root (when it is an
object) followed by its `data`/`protocol`/`metrics`/`summary` members that are
objects (hyperliquid_perps_to_dune.py:144-149). -/
def poolsOf (j : JVal) : List Obj :=
  match j with
  | .jobj d =>
    d :: (["data", "protocol", "metrics", "summary"].filterMap (fun k =>
      match lookupJ d k with
      | some (.jobj d2) => some d2
      | _ => none))
  | _ => []

/-- One pool iteration of `pick_snapshot`
(hyperliquid_perps_to_dune.py:151-156): each field is updated with Python
`out[k] = out[k] or _first_present(blob, aliases)`. -/
def snapStep (out : Snap) (blob : Obj) : Snap :=
  fun f => pyOr (out f) (first_present blob (aliasesOf f))

/-- Embeds `pick_snapshot` (hyperliquid_perps_to_dune.py:138-158). -/
def pick_snapshot (j : JVal) : Snap :=
  (poolsOf j).foldl snapStep (fun _ => none)

/-- Embeds the fallback trigger of `main`
(hyperliquid_perps_to_dune.py:256): any of the four current counters still
`None`. -/
def needs_fallback (snap : Snap) : Bool :=
  [SnapField.v24, SnapField.v7, SnapField.v30, SnapField.oi].any
    (fun f => (snap f).isNone)

/-- Embeds the fallback merge of `main`
(hyperliquid_perps_to_dune.py:256-261): when some current counter is missing,
each still-`None` field of the snapshot is filled from the overview fallback
result; resolved fields are left alone. -/
def apply_fallback (snap ov : Snap) : Snap :=
  if needs_fallback snap then
    fun f =>
      match snap f with
      | none => ov f
      | some v => some v
  else snap

/-- Payload whose root resolves `volume24h` to `0` while its nested `data`
object carries `volume24h = 5`. -/
def c1_payload : JVal :=
  .jobj [("volume24h", .jnum ⟨0, 0⟩), ("data", .jobj [("volume24h", .jnum ⟨5, 0⟩)])]

/-- The root blob of `c1_payload`. -/
def c1_root : Obj :=
  [("volume24h", JVal.jnum ⟨0, 0⟩), ("data", JVal.jobj [("volume24h", JVal.jnum ⟨5, 0⟩)])]

/-- A partially resolved snapshot with `volume24h` already set to `7`. -/
def c1_out : Snap := fun f =>
  match f with
  | SnapField.v24 => some (JVal.jnum ⟨7, 0⟩)
  | _ => none

/-- Primary snapshot of the spec's fallback scenario: `volume24h = None`,
`volume7d = 50`. -/
def c2_snap : Snap := fun f =>
  match f with
  | SnapField.v7 => some (JVal.jnum ⟨50, 0⟩)
  | _ => none

/-- Fallback result of the spec's scenario: `volume24h = 123`,
`volume7d = 60`. -/
def c2_ov : Snap := fun f =>
  match f with
  | SnapField.v24 => some (JVal.jnum ⟨123, 0⟩)
  | SnapField.v7 => some (JVal.jnum ⟨60, 0⟩)
  | _ => none

/-- Boolean test that `pat` matches at the head of the character list. -/
def headMatches : List Char → List Char → Bool
  | [], _ => true
  | _ :: _, [] => false
  | a :: as, b :: bs => a == b && headMatches as bs

/-- Boolean substring search on character lists. -/
def subSearch (pat : List Char) : List Char → Bool
  | [] => pat.isEmpty
  | c :: cs => headMatches pat (c :: cs) || subSearch pat cs

/-- ASCII lowercasing of one character (models Python `str.lower` on the
ASCII messages these scripts compare). -/
def lowerChar (c : Char) : Char :=
  if 65 <= c.toNat && c.toNat <= 90 then Char.ofNat (c.toNat + 32) else c

/-- ASCII lowercasing of a string. -/
def strLower (s : String) : String :=
  String.mk (s.toList.map lowerChar)

/-- Model of the Python `pat in s` substring test. -/
def strContains (s pat : String) : Bool :=
  subSearch pat.toList s.toList

/-- Embeds the candidate loop of `fetch_first_json`
(hyperliquid_perps_to_dune.py:38-54) over the pre-determined outcome of each
candidate attempt: the first success is returned, each failure replaces the
single `last` error slot, and exhaustion raises with whatever `last` holds. -/
def fetch_first_json_loop :
    List (Except String JVal) → Option String → Except (Option String) JVal
  | [], last => .error last
  | .ok j :: _, _ => .ok j
  | .error e :: rest, _ => fetch_first_json_loop rest (some e)

/-- Embeds `fetch_first_json`, entered with `last = None`. -/
def fetch_first_json (attempts : List (Except String JVal)) :
    Except (Option String) JVal :=
  fetch_first_json_loop attempts none

/-- The SystemExit message raised by `fetch_first_json` when every candidate
failed (hyperliquid_perps_to_dune.py:54); it interpolates only `last`. -/
def fetch_fatal_msg (last : Option String) : String :=
  "failed to fetch any derivatives endpoint: " ++
    (match last with
     | some e => e
     | none => "None")

/-- A sink response as decoded from the insert endpoint: how many rows it
reports written, plus the raw body text. -/
structure SinkResp where
  rows_written : Nat
  body : String
deriving DecidableEq

/-- A failed transport call: HTTP status code and error body. -/
abbrev HttpFailure := Nat × String

/-- Embeds `dune_post_bytes` (hl_perps_append_snapshot.py:39-46): on transport
success the response is returned as-is, without inspecting what it reports;
an HTTPError raises SystemExit with the status and body. -/
def dune_post_bytes (label : String) (transport : Except HttpFailure SinkResp) :
    Except String SinkResp :=
  match transport with
  | .ok resp => .ok resp
  | .error (code, body) =>
    .error ("Dune " ++ label ++ " insert failed: " ++ toString code ++ " " ++ body)

/-- Embeds the publish sequence of `main`
(hl_perps_append_snapshot.py:115-127): attempt the NDJSON insert; on its
SystemExit fall back to the CSV insert, whose SystemExit propagates. -/
def publish_snapshot (ndj csvr : Except HttpFailure SinkResp) :
    Except String (String × SinkResp) :=
  match dune_post_bytes "NDJSON" ndj with
  | .ok r => .ok ("NDJSON", r)
  | .error _ =>
    match dune_post_bytes "CSV" csvr with
    | .ok r => .ok ("CSV", r)
    | .error e => .error e

/-- A transport-success response reporting zero rows written. -/
def zero_rows_resp : SinkResp := ⟨0, "rows written 0"⟩

/-- Embeds `ensure_table` (hl_perps_append_snapshot.py:49-71) over the outcome
of the create call: a SystemExit whose lowercased message mentions neither
"already exists" nor "already existed" re-raises, otherwise it is swallowed. -/
def ensure_table_append (createResult : Except String Unit) : Except String Unit :=
  match createResult with
  | .ok _ => .ok ()
  | .error e =>
    if !(strContains (strLower e) "already exists") && !(strContains (strLower e) "already existed")
    then .error e
    else .ok ()

/-- Embeds `ensure_table` (hl_perps_backfill_from_csv_ci.py:22-35): a failure
whose lowercased message does not mention "already exists" re-raises,
otherwise it is swallowed. -/
def ensure_table_backfill (createResult : Except String Unit) : Except String Unit :=
  match createResult with
  | .ok _ => .ok ()
  | .error e =>
    if !(strContains (strLower e) "already exists") then .error e else .ok ()

/-- Zero-padded rendering of a natural number to at least `w` digits. -/
def padNat (w n : Nat) : String :=
  let s := toString n
  String.mk (List.replicate (w - s.length) '0') ++ s

/-- Civil-calendar conversion, days since 1970-01-01 to (year, month, day) in
the proleptic Gregorian calendar (the arithmetic underlying
`datetime.fromtimestamp(..., tz=utc).date()`). -/
def civilFromDays (z0 : Int) : Int × Int × Int :=
  let z := z0 + 719468
  let era : Int := Int.fdiv z 146097
  let doe : Int := z - era * 146097
  let yoe : Int :=
    Int.fdiv (doe - Int.fdiv doe 1460 + Int.fdiv doe 36524 - Int.fdiv doe 146096) 365
  let y : Int := yoe + era * 400
  let doy : Int := doe - (365 * yoe + Int.fdiv yoe 4 - Int.fdiv yoe 100)
  let mp : Int := Int.fdiv (5 * doy + 2) 153
  let d : Int := doy - Int.fdiv (153 * mp + 2) 5 + 1
  let m : Int := mp + (if mp < 10 then 3 else -9)
  (y + (if m ≤ 2 then 1 else 0), m, d)

/-- Renders a (year, month, day) triple as an ISO-8601 `YYYY-MM-DD` string. -/
def renderDate (ymd : Int × Int × Int) : String :=
  padNat 4 ymd.1.natAbs ++ "-" ++ padNat 2 ymd.2.1.natAbs ++ "-" ++ padNat 2 ymd.2.2.natAbs

/-- Embeds `ts_to_date_str` (hyperliquid_perps_to_dune.py:161-162): the UTC
calendar day of a unix timestamp is the floor of `ts / 86400` days since the
epoch, rendered `YYYY-MM-DD`.  Timestamps outside datetime's supported year
range 1..9999 raise in Python (modelled as `none`; the caller then skips the
point). -/
def ts_to_date_str (ts : Int) : Option String :=
  let days := Int.fdiv ts 86400
  if days < -719162 || 2932896 < days then none
  else some (renderDate (civilFromDays days))

/-- The integer numerator of `x` rescaled to six decimal places, i.e. the
floor of `x * 10^6 + 1/2`. -/
def scale6 (x : Dec) : Int :=
  if x.e ≤ 6 then x.m * pow10 (6 - x.e)
  else Int.fdiv (2 * x.m * pow10 6 + pow10 x.e) (2 * pow10 x.e)

/-- Embeds the Python fixed-point format `f"{v:.6f}"` on exact decimals: six
fractional digits, rounding to the nearest (the exact tie-rounding mode and
the `-0` presentation of IEEE formatting are idealised; no claim depends on
either). -/
def fmt6 (x : Dec) : String :=
  let n := scale6 x
  (if n < 0 then "-" else "") ++
    toString (n.natAbs / 1000000) ++ "." ++ padNat 6 (n.natAbs % 1000000)

/-- Model of Python `float(v)` on a decoded JSON value. -/
def pyFloat : JVal → Option Dec
  | .jnum d => some d
  | .jstr s => parseDec s
  | .jbool b => some ⟨if b then 1 else 0, 0⟩
  | _ => none

/-- Model of Python `int(v)` on a decoded JSON value (floats truncate toward
zero). -/
def pyInt : JVal → Option Int
  | .jnum d => some (Int.tdiv d.m (pow10 d.e))
  | .jstr s => parseIntStr s
  | .jbool b => some (if b then 1 else 0)
  | _ => none

/-- One raw daily item as consumed by `normalize_rows`: the results of
`item.get("date")`, `item.get("volume")`, `item.get("openInterest")`, with
`none` for a missing key (Python `None`). -/
structure DailyPoint where
  date : Option JVal
  volume : Option JVal
  openInterest : Option JVal

/-- One canonical output row of `normalize_rows` — the nine CSV columns
(hyperliquid_perps_to_dune.py:166-169). -/
structure CanonRow where
  date : String
  volume_usd : String
  open_interest_usd : String
  snapshot_volume_24h : String
  snapshot_volume_7d : String
  snapshot_volume_30d : String
  snapshot_open_interest_now : String
  snapshot_total_volume : String
  as_of_utc : String
deriving DecidableEq

/-- Serialisation of one optional value inside the row append
(hyperliquid_perps_to_dune.py:182-188): Python `None` becomes the empty
string, anything else `f"{float(v):.6f}"`; a `float()` failure raises, which
skips the whole row (`none`). -/
def fmtOpt (v : Option JVal) : Option String :=
  match v with
  | none => some ""
  | some x => (pyFloat x).map fmt6

/-- Builds one output row from a raw daily item
(hyperliquid_perps_to_dune.py:172-192): a missing date skips the row, as does
any exception raised by `int()`, the date conversion, or a `float()` on the
item or snapshot values. -/
def mkRow (snap : Snap) (nowStr : String) (item : DailyPoint) : Option CanonRow :=
  item.date.bind fun dv =>
  (pyInt dv).bind fun ts =>
  (ts_to_date_str ts).bind fun d =>
  (fmtOpt item.volume).bind fun vs =>
  (fmtOpt item.openInterest).bind fun os =>
  (fmtOpt (snap SnapField.v24)).bind fun s24 =>
  (fmtOpt (snap SnapField.v7)).bind fun s7 =>
  (fmtOpt (snap SnapField.v30)).bind fun s30 =>
  (fmtOpt (snap SnapField.oi)).bind fun soi =>
  (fmtOpt (snap SnapField.total)).map fun st =>
  ⟨d, vs, os, s24, s7, s30, soi, st, nowStr⟩

/-- The row-building loop of `normalize_rows`
(hyperliquid_perps_to_dune.py:171-192).  Python calls `datetime.now` once per
appended row; `clock n` is the string captured by the n-th such call. -/
def buildRows (snap : Snap) (clock : Nat → String) :
    List DailyPoint → Nat → List CanonRow
  | [], _ => []
  | item :: rest, n =>
    match mkRow snap (clock n) item with
    | some r => r :: buildRows snap clock rest (n + 1)
    | none => buildRows snap clock rest n

/-- Insert-or-update on an association list, keeping the position of an
existing key — the Python `dict` assignment `last_by_date[r[0]] = r`. -/
def upsert (m : List (String × CanonRow)) (k : String) (v : CanonRow) :
    List (String × CanonRow) :=
  match m with
  | [] => [(k, v)]
  | (k0, v0) :: rest => if k0 = k then (k, v) :: rest else (k0, v0) :: upsert rest k v

/-- The `last_by_date` dict of `normalize_rows`
(hyperliquid_perps_to_dune.py:195-198). -/
def lastByDate (rows : List CanonRow) : List (String × CanonRow) :=
  rows.foldl (fun m r => upsert m r.date r) []

/-- Python `last_by_date[k]` as an optional association-list lookup. -/
def lookupRow : List (String × CanonRow) → String → Option CanonRow
  | [], _ => none
  | (k0, v0) :: rest, k => if k0 = k then some v0 else lookupRow rest k

/-- Code-point lexicographic comparison of character lists — Python string
`<=`. -/
def charListLe : List Char → List Char → Bool
  | [], _ => true
  | _ :: _, [] => false
  | a :: as, b :: bs =>
    if a.toNat = b.toNat then charListLe as bs else decide (a.toNat < b.toNat)

/-- Python string comparison `a <= b` (lexicographic on code points). -/
def strLe (a b : String) : Bool :=
  charListLe a.toList b.toList

/-- The ordering relation modelling Python `sorted` on the date keys. -/
def SLe (a b : String) : Prop :=
  strLe a b = true

instance : DecidableRel SLe :=
  fun a b => inferInstanceAs (Decidable (strLe a b = true))

/-- Embeds `normalize_rows` (hyperliquid_perps_to_dune.py:164-199): build the
raw rows, de-duplicate by date keeping the last written row, and return the
rows of the sorted distinct dates. -/
def normalize_rows (daily : List DailyPoint) (snap : Snap) (clock : Nat → String) :
    List CanonRow :=
  let rows := buildRows snap clock daily 0
  let m := lastByDate rows
  ((m.map Prod.fst).insertionSort SLe).filterMap (fun k => lookupRow m k)

/-- Two daily points one day apart (unix times 0 and 86400). -/
def c5_daily : List DailyPoint :=
  [⟨some (.jnum ⟨0, 0⟩), none, none⟩, ⟨some (.jnum ⟨86400, 0⟩), none, none⟩]

/-- The all-`None` snapshot. -/
def emptySnap : Snap := fun _ => none

/-- A clock whose second sample falls in the next UTC second. -/
def c5_clock : Nat → String := fun n =>
  if n = 0 then "2024-01-01T00:00:00Z" else "2024-01-01T00:00:01Z"

/-- The constant clock of a run that completes within one second. -/
def c5_one_clock : Nat → String := fun _ => "2024-01-01T00:00:00Z"

/-- The first row published by the constant-clock run on `c5_daily`. -/
def c5_row0 : CanonRow :=
  ⟨"1970-01-01", "", "", "", "", "", "", "", "2024-01-01T00:00:00Z"⟩

/-- Modelled from the spec: the hosted-exchange info-endpoint adapter is not
present under `src/`.  Per the spec its response is a two-element array
`[metadata, asset-contexts[]]`, each asset context carrying string-encoded
`openInterest` and `dayNtlVlm` fields.  One asset context of that array. -/
structure AssetCtx where
  openInterest : String
  dayNtlVlm : String

/-- Modelled from the spec: the summation of the string-encoded
`openInterest` and `dayNtlVlm` fields across all asset contexts, yielding
`(open_interest_usd, volume24h_usd)`; an unparseable field fails the sum. -/
def sum_asset_ctxs (ctxs : List AssetCtx) : Option (Dec × Dec) :=
  (ctxs.mapM (fun c => parseDec c.openInterest)).bind fun ois =>
  (ctxs.mapM (fun c => parseDec c.dayNtlVlm)).map fun vs =>
  (ois.foldl decAdd ⟨0, 0⟩, vs.foldl decAdd ⟨0, 0⟩)

/-- One raw daily row as consumed by `build_csv` (hl_perps_to_dune.py:39-43):
`r["date"]` (`none` models a missing key, whose KeyError aborts the build),
plus `r.get("volume")` and `r.get("openInterest")`. -/
structure BRow where
  date : Option JVal
  volume : Option JVal
  openInterest : Option JVal

/-- One shaped output record of `build_csv` (hl_perps_to_dune.py:44-54);
values are carried as the decoded JSON values `build_csv` copies verbatim,
serialisation to CSV text being presentation only. -/
structure OutRow where
  date : String
  volume_usd : Option JVal
  open_interest_usd : Option JVal
  snapshot_volume_24h : Option JVal
  snapshot_volume_7d : Option JVal
  snapshot_volume_30d : Option JVal
  snapshot_open_interest_now : Option JVal
  snapshot_total_volume : Option JVal
  as_of_utc : String

/-- The per-point day number used by `build_csv`:
`dt.datetime.utcfromtimestamp(int(r["date"])).date()` as days since the
epoch; `none` models the exception from a missing or unparseable date or an
out-of-range timestamp. -/
def brow_days (r : BRow) : Option Int :=
  r.date.bind fun dv =>
  (pyInt dv).bind fun ts =>
  let days := Int.fdiv ts 86400
  if days < -719162 || 2932896 < days then none else some days

/-- The filtering loop of `build_csv` (hl_perps_to_dune.py:38-54): shape each
point whose day is on or after the cutoff, skip older points, abort on the
first point whose date access or parse raises. -/
def build_rows_filter (cutoff : Int) (snap : Snap) (as_of : String) :
    List BRow → Option (List OutRow)
  | [] => some []
  | r :: rest =>
    (brow_days r).bind fun days =>
    (build_rows_filter cutoff snap as_of rest).map fun shaped =>
    if days < cutoff then shaped
    else ⟨renderDate (civilFromDays days), r.volume, r.openInterest,
          snap SnapField.v24, snap SnapField.v7, snap SnapField.v30,
          snap SnapField.oi, snap SnapField.total, as_of⟩ :: shaped

/-- Embeds `build_csv` (hl_perps_to_dune.py:28-61): keep the rolling window
(cutoff = today minus ROLLING_DAYS), then serialise; the header row is taken
from `rows[0].keys()`, so an empty filtered list raises IndexError (`none`)
instead of producing a header-only CSV. -/
def build_csv (todayDays : Int) (rollingDays : Nat) (daily : List BRow)
    (snap : Snap) (as_of : String) : Option (List OutRow) :=
  (build_rows_filter (todayDays - (rollingDays : Int)) snap as_of daily).bind
    fun shaped => if shaped.isEmpty then none else some shaped

/-- An input whose single point (unix time 0) falls before the cutoff of a
run on day 20000 with a 400-day window. -/
def c10_old : List BRow := [⟨some (.jnum ⟨0, 0⟩), none, none⟩]

/-- An input whose single point (unix time 1700000000, day 19675) falls
inside that window. -/
def c10_new : List BRow := [⟨some (.jnum ⟨1700000000, 0⟩), none, none⟩]

example : parseDec "1000.5" = some ⟨10005, 1⟩ := rfl

example : parseDec "-20" = some ⟨-20, 0⟩ := rfl

example : parseDec "abc" = none := rfl

example : parseIntStr "1700000000" = some 1700000000 := rfl

/-- C1 counterexample: the root blob (scanned first) resolves `volume24h` to
the value `0`, yet `pick_snapshot` reports `5` from the later `data` blob —
the Python `out[k] = out[k] or ...` update treats a resolved `0` as
unresolved, so first-found does not win for the resolved value `0`. -/
theorem pick_snapshot_zero_is_overwritten :
    first_present c1_root (aliasesOf SnapField.v24) = some (JVal.jnum ⟨0, 0⟩) ∧
    pick_snapshot c1_payload SnapField.v24 = some (JVal.jnum ⟨5, 0⟩) :=
  ⟨rfl, rfl⟩

/-- C1 (amended): during the blob scan of `pick_snapshot`, once a field has
been resolved to a Python-truthy value (in particular any non-zero number),
no later blob ever overwrites it, independently per field; only a field whose
resolved value is falsy (such as `0`) can still be replaced. -/
theorem pick_snapshot_truthy_first_found_wins (out : Snap) (pools : List Obj)
    (f : SnapField) (v : JVal) (h1 : out f = some v) (h2 : truthy v = true) :
    (pools.foldl snapStep out) f = some v := by
  induction pools generalizing out with
  | nil => exact h1
  | cons blob rest ih =>
    apply ih
    simp [snapStep, pyOr, h1, h2]

/-- Witness for C1 (amended): a later blob offering `volume24h = 9` does not
overwrite the value `7` resolved earlier. -/
theorem pick_snapshot_truthy_first_found_wins_witness :
    c1_out SnapField.v24 = some (JVal.jnum ⟨7, 0⟩) ∧
    truthy (JVal.jnum ⟨7, 0⟩) = true ∧
    ([[("volume24h", JVal.jnum ⟨9, 0⟩)]].foldl snapStep c1_out) SnapField.v24 =
      some (JVal.jnum ⟨7, 0⟩) :=
  ⟨rfl, rfl,
    pick_snapshot_truthy_first_found_wins c1_out [[("volume24h", JVal.jnum ⟨9, 0⟩)]]
      SnapField.v24 (JVal.jnum ⟨7, 0⟩) rfl rfl⟩

/-- Any field of the four current counters that is still `None` forces the
fallback branch of `main` to run. -/
theorem needs_fallback_of_none {snap : Snap} {f : SnapField}
    (hf : f ≠ SnapField.total) (h : snap f = none) : needs_fallback snap = true := by
  cases f
  · simp [needs_fallback, h]
  · simp [needs_fallback, h]
  · simp [needs_fallback, h]
  · simp [needs_fallback, h]
  · exact absurd rfl hf

/-- C2: the overview-fallback merge of `main` fills exactly the still-`None`
fields of the primary snapshot: a resolved field always keeps its primary
value, a `None` field (other than `totalVolume`, whose absence alone does not
trigger the fallback) receives exactly the fallback's value, and any field the
merge changes was `None` and now carries the fallback value. -/
theorem apply_fallback_fills_only_null (snap ov : Snap) :
    (∀ f v, snap f = some v → apply_fallback snap ov f = some v) ∧
    (∀ f, f ≠ SnapField.total → snap f = none → apply_fallback snap ov f = ov f) ∧
    (∀ f, apply_fallback snap ov f ≠ snap f →
      snap f = none ∧ apply_fallback snap ov f = ov f) := by
  by_cases hg : needs_fallback snap = true
  · refine ⟨?_, ?_, ?_⟩
    · intro f v hf
      simp [apply_fallback, hg, hf]
    · intro f _ hf
      simp [apply_fallback, hg, hf]
    · intro f hne
      cases hsf : snap f with
      | none => exact ⟨rfl, by simp [apply_fallback, hg, hsf]⟩
      | some v => exact absurd (by simp [apply_fallback, hg, hsf]) hne
  · refine ⟨?_, ?_, ?_⟩
    · intro f v hf
      simp [apply_fallback, hg, hf]
    · intro f hft hf
      exact absurd (needs_fallback_of_none hft hf) hg
    · intro f hne
      exact absurd (by simp [apply_fallback, hg]) hne

/-- Witness for C2: merging fills `volume24h` with the fallback's `123` and
keeps the primary `volume7d = 50` although the fallback reports `60`. -/
theorem apply_fallback_fills_only_null_witness :
    apply_fallback c2_snap c2_ov SnapField.v24 = some (JVal.jnum ⟨123, 0⟩) ∧
    apply_fallback c2_snap c2_ov SnapField.v7 = some (JVal.jnum ⟨50, 0⟩) :=
  ⟨((apply_fallback_fills_only_null c2_snap c2_ov).2.1 SnapField.v24 (by decide) rfl).trans
      rfl,
   (apply_fallback_fills_only_null c2_snap c2_ov).1 SnapField.v7 (JVal.jnum ⟨50, 0⟩) rfl⟩

/-- C3 counterexample: with two failing candidates the run is fatal, but the
fatal error holds only the second (last) attempted error, and the raised
message does not mention the first error at all — the first attempted error is
swallowed, contradicting the claim that all attempted errors are captured. -/
theorem fetch_first_json_keeps_only_last_error :
    fetch_first_json [Except.error "error A", Except.error "error B"] =
      Except.error (some "error B") ∧
    strContains (fetch_fatal_msg (some "error B")) "error A" = false :=
  ⟨rfl, rfl⟩

/-- Loop invariant: an all-failure attempt list ends with the last error. -/
theorem fetch_loop_all_fail (es : List String) (h : es ≠ []) (acc : Option String) :
    fetch_first_json_loop (es.map Except.error) acc =
      Except.error (some (es.getLast h)) := by
  induction es generalizing acc with
  | nil => exact absurd rfl h
  | cons a rest ih =>
    cases rest with
    | nil => rfl
    | cons b rest2 =>
      show fetch_first_json_loop ((b :: rest2).map Except.error) (some a) =
        Except.error (some ((a :: b :: rest2).getLast h))
      rw [ih (by simp) (some a)]
      simp [List.getLast_cons]

/-- C3 (amended): if every candidate attempt fails, the source-adapter run
fails fatally, but the fatal error captures only the last attempted error;
the earlier errors are logged and then discarded, not aggregated. -/
theorem fetch_first_json_all_fail_last (es : List String) (h : es ≠ []) :
    fetch_first_json (es.map Except.error) = Except.error (some (es.getLast h)) :=
  fetch_loop_all_fail es h none

/-- Witness for C3 (amended): two failing candidates produce a fatal result
carrying exactly the second error. -/
theorem fetch_first_json_all_fail_last_witness :
    fetch_first_json (["e1", "e2"].map Except.error) =
      Except.error (some (["e1", "e2"].getLast (by decide))) ∧
    ["e1", "e2"].getLast (by decide) = "e2" :=
  ⟨fetch_first_json_all_fail_last ["e1", "e2"] (by decide), rfl⟩

/-- C4 counterexample: a transport-success response indicating zero rows
written is accepted as a success — the fallback encoding is not attempted
(here the CSV fallback would fail) and the publish reports success, so a
zero-rows response is not treated as a rejection. -/
theorem publish_zero_rows_accepted :
    zero_rows_resp.rows_written = 0 ∧
    publish_snapshot (Except.ok zero_rows_resp) (Except.error (400, "bad payload")) =
      Except.ok ("NDJSON", zero_rows_resp) :=
  ⟨rfl, rfl⟩

/-- C4 (amended): rejection is decided by transport status alone — any
transport-success response is a success, whatever number of written rows it
reports (including zero); the CSV fallback runs exactly when the NDJSON
transport call fails, and the publish is fatal only when both transport calls
fail. -/
theorem publish_rejects_on_transport_only (r r' : SinkResp)
    (e : HttpFailure) (c1 : Nat) (b1 : String)
    (c : Except HttpFailure SinkResp) :
    publish_snapshot (Except.ok r) c = Except.ok ("NDJSON", r) ∧
    publish_snapshot (Except.error e) (Except.ok r') = Except.ok ("CSV", r') ∧
    publish_snapshot (Except.error e) (Except.error (c1, b1)) =
      Except.error ("Dune CSV insert failed: " ++ toString c1 ++ " " ++ b1) := by
  obtain ⟨ec, eb⟩ := e
  exact ⟨rfl, rfl, rfl⟩

/-- C8: table creation is idempotent in both script variants: a successful
create succeeds, a failure whose message indicates the table already exists is
swallowed and the operation succeeds, and any other failure propagates to the
caller unchanged. -/
theorem ensure_table_idempotent (e : String) :
    (ensure_table_append (Except.ok ()) = Except.ok () ∧
     ensure_table_backfill (Except.ok ()) = Except.ok ()) ∧
    (strContains (strLower e) "already exists" = true →
      ensure_table_append (Except.error e) = Except.ok () ∧
      ensure_table_backfill (Except.error e) = Except.ok ()) ∧
    (strContains (strLower e) "already exists" = false →
     strContains (strLower e) "already existed" = false →
      ensure_table_append (Except.error e) = Except.error e ∧
      ensure_table_backfill (Except.error e) = Except.error e) := by
  refine ⟨⟨rfl, rfl⟩, ?_, ?_⟩
  · intro h
    constructor
    · simp [ensure_table_append, h]
    · simp [ensure_table_backfill, h]
  · intro h1 h2
    constructor
    · simp [ensure_table_append, h1, h2]
    · simp [ensure_table_backfill, h1]

/-- Witness for C8: an "already exists" failure is swallowed by both
variants, while a network failure propagates from both. -/
theorem ensure_table_idempotent_witness :
    ensure_table_append (Except.error "Table already exists, code 409") = Except.ok () ∧
    ensure_table_backfill (Except.error "Table already exists, code 409") = Except.ok () ∧
    ensure_table_append (Except.error "network timeout") = Except.error "network timeout" ∧
    ensure_table_backfill (Except.error "network timeout") = Except.error "network timeout" :=
  ⟨((ensure_table_idempotent "Table already exists, code 409").2.1 (by decide)).1,
   ((ensure_table_idempotent "Table already exists, code 409").2.1 (by decide)).2,
   ((ensure_table_idempotent "network timeout").2.2 (by decide) (by decide)).1,
   ((ensure_table_idempotent "network timeout").2.2 (by decide) (by decide)).2⟩

example : civilFromDays 0 = (1970, 1, 1) := rfl

example : civilFromDays (-719162) = (1, 1, 1) := rfl

example : civilFromDays 2932896 = (9999, 12, 31) := rfl

example : ts_to_date_str 1700000000 = some "2023-11-14" := rfl

example : ts_to_date_str 0 = some "1970-01-01" := rfl

example : ts_to_date_str 86400 = some "1970-01-02" := rfl

example : fmt6 ⟨10005, 1⟩ = "1000.500000" := rfl

example : fmt6 ⟨200, 0⟩ = "200.000000" := rfl

example : fmt6 ⟨-35, 1⟩ = "-3.500000" := rfl

example : strLe "2023-11-14" "2023-11-15" = true := rfl

/-- The spec's resolver-normalizer scenario: one point
`(date 1700000000, volume "1000.5", openInterest "200")` with snapshot
`volume24h = 999` yields the expected canonical row. -/
example :
    mkRow (fun f => if f = SnapField.v24 then some (.jnum ⟨999, 0⟩) else none) "T"
        ⟨some (.jnum ⟨1700000000, 0⟩), some (.jstr "1000.5"), some (.jstr "200")⟩ =
      some ⟨"2023-11-14", "1000.500000", "200.000000", "999.000000", "", "", "", "", "T"⟩ :=
  rfl

/-- Totality of the code-point comparison. -/
theorem charListLe_total : ∀ as bs, charListLe as bs = true ∨ charListLe bs as = true := by
  intro as
  induction as with
  | nil => intro bs; left; rfl
  | cons a as2 ih =>
    intro bs
    cases bs with
    | nil => right; rfl
    | cons b bs2 =>
      by_cases hab : a.toNat = b.toNat
      · rcases ih bs2 with h | h
        · left; simpa [charListLe, hab] using h
        · right; simpa [charListLe, hab.symm] using h
      · by_cases hlt : a.toNat < b.toNat
        · left; simp [charListLe, hab, hlt]
        · right
          have hba : ¬ b.toNat = a.toNat := fun h => hab h.symm
          simp only [charListLe, if_neg hba]
          simp
          omega

/-- Transitivity of the code-point comparison. -/
theorem charListLe_trans :
    ∀ as bs cs, charListLe as bs = true → charListLe bs cs = true →
      charListLe as cs = true := by
  intro as
  induction as with
  | nil => intro bs cs h1 h2; rfl
  | cons a as2 ih =>
    intro bs cs h1 h2
    cases bs with
    | nil => simp [charListLe] at h1
    | cons b bs2 =>
      cases cs with
      | nil => simp [charListLe] at h2
      | cons c cs2 =>
        by_cases hab : a.toNat = b.toNat
        · by_cases hbc : b.toNat = c.toNat
          · have hac : a.toNat = c.toNat := hab.trans hbc
            simp only [charListLe, if_pos hab, if_pos hbc, if_pos hac] at h1 h2 ⊢
            exact ih bs2 cs2 h1 h2
          · simp only [charListLe, if_pos hab, if_neg hbc] at h1 h2
            have hbc2 : b.toNat < c.toNat := by simpa using h2
            have hac : ¬ a.toNat = c.toNat := by omega
            simp only [charListLe, if_neg hac]
            simp
            omega
        · simp only [charListLe, if_neg hab] at h1
          have hab2 : a.toNat < b.toNat := by simpa using h1
          by_cases hbc : b.toNat = c.toNat
          · have hac : ¬ a.toNat = c.toNat := by omega
            simp only [charListLe, if_neg hac]
            simp
            omega
          · simp only [charListLe, if_neg hbc] at h2
            have hbc2 : b.toNat < c.toNat := by simpa using h2
            have hac : ¬ a.toNat = c.toNat := by omega
            simp only [charListLe, if_neg hac]
            simp
            omega

instance : IsTotal String SLe :=
  ⟨fun a b => charListLe_total a.toList b.toList⟩

instance : IsTrans String SLe :=
  ⟨fun a b c => charListLe_trans a.toList b.toList c.toList⟩

/-- Every successfully built row carries the clock string it was given. -/
theorem mkRow_as_of {snap : Snap} {s : String} {item : DailyPoint} {r : CanonRow}
    (h : mkRow snap s item = some r) : r.as_of_utc = s := by
  simp only [mkRow, Option.bind_eq_some, Option.map_eq_some', Option.some.injEq] at h
  obtain ⟨dv, _, ts, _, d, _, vs, _, os, _, s24, _, s7, _, s30, _, soi, _, st, _, hr⟩ := h
  exact hr ▸ rfl

/-- Every row built during the loop carries some clock sample; under a
constant clock they all carry that constant. -/
theorem buildRows_as_of (snap : Snap) (clock : Nat → String) (t : String)
    (hc : ∀ n, clock n = t) :
    ∀ (daily : List DailyPoint) (i : Nat) (r : CanonRow),
      r ∈ buildRows snap clock daily i → r.as_of_utc = t := by
  intro daily
  induction daily with
  | nil => intro i r hr; cases hr
  | cons item rest ih =>
    intro i r hr
    cases hm : mkRow snap (clock i) item with
    | some r0 =>
      simp only [buildRows, hm] at hr
      rcases List.mem_cons.mp hr with rfl | hr2
      · exact (mkRow_as_of hm).trans (hc i)
      · exact ih (i + 1) r hr2
    | none =>
      simp only [buildRows, hm] at hr
      exact ih i r hr

/-- Unfolding upsert at a matching head key. -/
theorem upsert_cons_eq (k0 k : String) (v0 : CanonRow) (rest : List (String × CanonRow))
    (v : CanonRow) (h : k0 = k) : upsert ((k0, v0) :: rest) k v = (k, v) :: rest := by
  simp [upsert, h]

/-- Unfolding upsert at a non-matching head key. -/
theorem upsert_cons_ne (k0 k : String) (v0 : CanonRow) (rest : List (String × CanonRow))
    (v : CanonRow) (h : ¬ k0 = k) :
    upsert ((k0, v0) :: rest) k v = (k0, v0) :: upsert rest k v := by
  simp [upsert, h]

/-- Looking up after an upsert finds the new value at its key and is
otherwise unchanged. -/
theorem lookupRow_upsert (m : List (String × CanonRow)) (k k2 : String) (v : CanonRow) :
    lookupRow (upsert m k v) k2 = if k2 = k then some v else lookupRow m k2 := by
  induction m with
  | nil =>
    by_cases h : k2 = k
    · simp [upsert, lookupRow, h]
    · rw [if_neg h]
      simp [upsert, lookupRow, Ne.symm h]
  | cons p rest ih =>
    obtain ⟨k0, v0⟩ := p
    by_cases h0 : k0 = k
    · subst h0
      rw [upsert_cons_eq k0 k0 v0 rest v rfl]
      by_cases h2 : k2 = k0
      · subst h2
        simp [lookupRow]
      · simp [lookupRow, Ne.symm h2, h2]
    · rw [upsert_cons_ne k0 k v0 rest v h0]
      by_cases h2 : k2 = k0
      · subst h2
        simp [lookupRow, h0]
      · simp [lookupRow, Ne.symm h2, ih]

/-- Key membership after an upsert. -/
theorem mem_keys_upsert (m : List (String × CanonRow)) (k k2 : String) (v : CanonRow) :
    k2 ∈ (upsert m k v).map Prod.fst ↔ k2 = k ∨ k2 ∈ m.map Prod.fst := by
  induction m with
  | nil => simp [upsert]
  | cons p rest ih =>
    obtain ⟨k0, v0⟩ := p
    by_cases h0 : k0 = k
    · subst h0
      rw [upsert_cons_eq k0 k0 v0 rest v rfl]
      simp
    · rw [upsert_cons_ne k0 k v0 rest v h0]
      simp [ih]
      tauto

/-- Upsert preserves distinctness of the keys. -/
theorem nodup_keys_upsert (m : List (String × CanonRow)) (k : String) (v : CanonRow)
    (h : (m.map Prod.fst).Nodup) : ((upsert m k v).map Prod.fst).Nodup := by
  induction m with
  | nil => simp [upsert]
  | cons p rest ih =>
    obtain ⟨k0, v0⟩ := p
    simp only [List.map_cons, List.nodup_cons] at h
    by_cases h0 : k0 = k
    · subst h0
      rw [upsert_cons_eq k0 k0 v0 rest v rfl]
      simp only [List.map_cons, List.nodup_cons]
      exact h
    · rw [upsert_cons_ne k0 k v0 rest v h0]
      simp only [List.map_cons, List.nodup_cons]
      refine ⟨?_, ih h.2⟩
      rw [mem_keys_upsert]
      rintro (rfl | hmem)
      · exact h0 rfl
      · exact h.1 hmem

/-- Upsert with a row stored under its own date preserves the invariant that
every entry's value carries the entry's key as its date. -/
theorem pairs_upsert (m : List (String × CanonRow)) (k : String) (v : CanonRow)
    (hv : v.date = k) (h : ∀ p ∈ m, (p.2 : CanonRow).date = p.1) :
    ∀ p ∈ upsert m k v, (p.2 : CanonRow).date = p.1 := by
  induction m with
  | nil =>
    intro p hp
    simp only [upsert, List.mem_singleton] at hp
    rw [hp]
    exact hv
  | cons q rest ih =>
    obtain ⟨k0, v0⟩ := q
    intro p hp
    by_cases h0 : k0 = k
    · rw [upsert_cons_eq k0 k v0 rest v h0] at hp
      rcases List.mem_cons.mp hp with rfl | hp2
      · exact hv
      · exact h p (List.mem_cons_of_mem _ hp2)
    · rw [upsert_cons_ne k0 k v0 rest v h0] at hp
      rcases List.mem_cons.mp hp with rfl | hp2
      · exact h (k0, v0) (List.mem_cons_self _ _)
      · exact ih (fun q hq => h q (List.mem_cons_of_mem _ hq)) p hp2

/-- Every entry after an upsert is the inserted pair or an original entry. -/
theorem mem_upsert_or (m : List (String × CanonRow)) (k : String) (v : CanonRow) :
    ∀ p ∈ upsert m k v, p = (k, v) ∨ p ∈ m := by
  induction m with
  | nil =>
    intro p hp
    simp only [upsert, List.mem_singleton] at hp
    exact Or.inl hp
  | cons q rest ih =>
    obtain ⟨k0, v0⟩ := q
    intro p hp
    by_cases h0 : k0 = k
    · rw [upsert_cons_eq k0 k v0 rest v h0] at hp
      rcases List.mem_cons.mp hp with rfl | hp2
      · exact Or.inl rfl
      · exact Or.inr (List.mem_cons_of_mem _ hp2)
    · rw [upsert_cons_ne k0 k v0 rest v h0] at hp
      rcases List.mem_cons.mp hp with rfl | hp2
      · exact Or.inr (List.mem_cons_self _ _)
      · rcases ih p hp2 with h2 | h2
        · exact Or.inl h2
        · exact Or.inr (List.mem_cons_of_mem _ h2)

/-- getLast? of a cons, phrased through Option.or. -/
theorem getLast?_cons_or {α : Type} (a : α) (l : List α) :
    (a :: l).getLast? = l.getLast?.or (some a) := by
  induction l generalizing a with
  | nil => rfl
  | cons b l2 ih =>
    rw [List.getLast?_cons_cons, ih b, Option.or_assoc]
    rfl

/-- The dict built by the fold maps each date to the last processed row
carrying it; keys absent from the rows fall back to the accumulator. -/
theorem lookupRow_foldl (rows : List CanonRow) (m : List (String × CanonRow)) (k : String) :
    lookupRow (rows.foldl (fun m r => upsert m r.date r) m) k =
      ((rows.filter (fun r => r.date == k)).getLast?).or (lookupRow m k) := by
  induction rows generalizing m with
  | nil => rfl
  | cons r rest ih =>
    rw [List.foldl_cons, ih]
    by_cases hd : r.date = k
    · have hlk : lookupRow (upsert m r.date r) k = some r := by
        rw [lookupRow_upsert, if_pos hd.symm]
      rw [hlk, List.filter_cons_of_pos (by simp [hd]), getLast?_cons_or, Option.or_assoc]
      rfl
    · have hlk : lookupRow (upsert m r.date r) k = lookupRow m k := by
        rw [lookupRow_upsert, if_neg (fun hh => hd hh.symm)]
      rw [hlk, List.filter_cons_of_neg (by simp [hd])]

/-- The de-duplication dict maps each date to the last row with that date. -/
theorem lookupRow_lastByDate (rows : List CanonRow) (k : String) :
    lookupRow (lastByDate rows) k = (rows.filter (fun r => r.date == k)).getLast? := by
  rw [lastByDate, lookupRow_foldl]
  cases (rows.filter (fun r => r.date == k)).getLast? <;> rfl

/-- Key membership in the fold result. -/
theorem mem_keys_foldl (rows : List CanonRow) (m : List (String × CanonRow)) (k : String) :
    k ∈ (rows.foldl (fun m r => upsert m r.date r) m).map Prod.fst ↔
      k ∈ m.map Prod.fst ∨ ∃ r ∈ rows, r.date = k := by
  induction rows generalizing m with
  | nil => simp
  | cons r rest ih =>
    rw [List.foldl_cons, ih, mem_keys_upsert]
    constructor
    · rintro ((h | h) | ⟨r2, h2, h3⟩)
      · exact Or.inr ⟨r, List.mem_cons_self r rest, h.symm⟩
      · exact Or.inl h
      · exact Or.inr ⟨r2, List.mem_cons_of_mem r h2, h3⟩
    · rintro (h | ⟨r2, h2, h3⟩)
      · exact Or.inl (Or.inr h)
      · rcases List.mem_cons.mp h2 with rfl | h4
        · exact Or.inl (Or.inl h3.symm)
        · exact Or.inr ⟨r2, h4, h3⟩

/-- The fold keeps the keys distinct. -/
theorem nodup_keys_foldl (rows : List CanonRow) :
    ∀ (m : List (String × CanonRow)), (m.map Prod.fst).Nodup →
      ((rows.foldl (fun m r => upsert m r.date r) m).map Prod.fst).Nodup := by
  induction rows with
  | nil => intro m h; exact h
  | cons r rest ih => intro m h; exact ih _ (nodup_keys_upsert m r.date r h)

/-- Every dict entry stores a row under that row's own date. -/
theorem pairs_foldl (rows : List CanonRow) :
    ∀ (m : List (String × CanonRow)), (∀ p ∈ m, (p.2 : CanonRow).date = p.1) →
      ∀ p ∈ rows.foldl (fun m r => upsert m r.date r) m, (p.2 : CanonRow).date = p.1 := by
  induction rows with
  | nil => intro m h; exact h
  | cons r rest ih => intro m h; exact ih _ (pairs_upsert m r.date r rfl h)

/-- Every dict value comes from the accumulator or from the processed rows. -/
theorem values_foldl (rows : List CanonRow) :
    ∀ (m : List (String × CanonRow)) (p : String × CanonRow),
      p ∈ rows.foldl (fun m r => upsert m r.date r) m →
        p ∈ m ∨ (p.2 : CanonRow) ∈ rows := by
  induction rows with
  | nil => intro m p hp; exact Or.inl hp
  | cons r rest ih =>
    intro m p hp
    rcases ih _ p hp with h | h
    · rcases mem_upsert_or m r.date r p h with rfl | h2
      · exact Or.inr (List.mem_cons_self _ _)
      · exact Or.inl h2
    · exact Or.inr (List.mem_cons_of_mem _ h)

/-- A key of the dict always has a value. -/
theorem lookupRow_isSome_of_mem {m : List (String × CanonRow)} {k : String}
    (hk : k ∈ m.map Prod.fst) : ∃ r, lookupRow m k = some r := by
  induction m with
  | nil => cases hk
  | cons p rest ih =>
    obtain ⟨k0, v0⟩ := p
    by_cases h : k0 = k
    · exact ⟨v0, by simp [lookupRow, h]⟩
    · have hk2 : k ∈ rest.map Prod.fst := by
        rcases List.mem_cons.mp hk with hh | hh
        · exact absurd hh.symm h
        · exact hh
      obtain ⟨r, hr⟩ := ih hk2
      exact ⟨r, by simp [lookupRow, h, hr]⟩

/-- A successful lookup exhibits its pair in the dict. -/
theorem lookupRow_some_mem {m : List (String × CanonRow)} {k : String} {r : CanonRow}
    (h : lookupRow m k = some r) : (k, r) ∈ m := by
  induction m with
  | nil => cases h
  | cons p rest ih =>
    obtain ⟨k0, v0⟩ := p
    by_cases h0 : k0 = k
    · subst h0
      have h2 : v0 = r := by simpa [lookupRow] using h
      rw [← h2]
      exact List.mem_cons_self _ _
    · simp only [lookupRow, if_neg h0] at h
      exact List.mem_cons_of_mem _ (ih h)

/-- Looking up every key of a list that the dict resolves, with each value
dated by its key, reproduces the key list. -/
theorem filterMap_lookup_map_date (m : List (String × CanonRow)) (l : List String)
    (hall : ∀ k ∈ l, ∃ r, lookupRow m k = some r ∧ (r : CanonRow).date = k) :
    (l.filterMap (fun k => lookupRow m k)).map CanonRow.date = l := by
  induction l with
  | nil => rfl
  | cons k rest ih =>
    obtain ⟨r, hr, hd⟩ := hall k (List.mem_cons_self k rest)
    rw [List.filterMap_cons_some hr]
    simp only [List.map_cons, hd]
    rw [ih (fun k2 hk2 => hall k2 (List.mem_cons_of_mem _ hk2))]

/-- filterMap of a single-key selector over a duplicate-free list. -/
theorem filterMap_ite_single (l : List String) (d : String) (o : Option CanonRow)
    (h : l.Nodup) :
    l.filterMap (fun k => if k = d then o else none) =
      if d ∈ l then o.toList else [] := by
  induction l with
  | nil => simp
  | cons k rest ih =>
    rw [List.nodup_cons] at h
    by_cases hk : k = d
    · subst hk
      have hnot : k ∉ rest := h.1
      rw [List.filterMap_cons]
      simp only [if_pos rfl]
      cases o with
      | none => simp [ih h.2, hnot]
      | some x => simp [ih h.2, hnot]
    · rw [List.filterMap_cons]
      simp only [if_neg hk]
      rw [ih h.2]
      have hdk : d ≠ k := fun hh => hk hh.symm
      simp [List.mem_cons, hdk]

/-- Every published row was built by the row loop. -/
theorem normalize_mem_buildRows (daily : List DailyPoint) (snap : Snap)
    (clock : Nat → String) (r : CanonRow) (hr : r ∈ normalize_rows daily snap clock) :
    r ∈ buildRows snap clock daily 0 := by
  simp only [normalize_rows] at hr
  obtain ⟨k, hk, hlk⟩ := List.mem_filterMap.mp hr
  have hpair := lookupRow_some_mem hlk
  rcases values_foldl (buildRows snap clock daily 0) [] (k, r) hpair with h | h
  · cases h
  · exact h

/-- C5 counterexample: `normalize_rows` stamps `as_of_utc` with a fresh
`datetime.now` call per row, so a run whose row loop crosses a second
boundary publishes two different `as_of_utc` values in one output set. -/
theorem normalize_rows_as_of_differs :
    (normalize_rows c5_daily emptySnap c5_clock).map CanonRow.as_of_utc =
      ["2024-01-01T00:00:00Z", "2024-01-01T00:00:01Z"] ∧
    ("2024-01-01T00:00:00Z" : String) ≠ "2024-01-01T00:00:01Z" :=
  ⟨rfl, by decide⟩

/-- C5 (amended): `normalize_rows` samples the wall clock once per emitted
row; whenever all samples taken during one run are equal — in particular
whenever the whole row loop completes within one UTC second, the stamp being
truncated to second precision — every row of the output set carries that one
shared `as_of_utc` value. -/
theorem normalize_rows_as_of_shared (daily : List DailyPoint) (snap : Snap)
    (clock : Nat → String) (t : String) (hc : ∀ n, clock n = t) :
    ∀ r ∈ normalize_rows daily snap clock, r.as_of_utc = t := by
  intro r hr
  exact buildRows_as_of snap clock t hc daily 0 r
    (normalize_mem_buildRows daily snap clock r hr)

/-- Witness for C5 (amended): under the constant clock the published row
carries the shared stamp. -/
theorem normalize_rows_as_of_shared_witness :
    c5_row0 ∈ normalize_rows c5_daily emptySnap c5_one_clock ∧
    c5_row0.as_of_utc = "2024-01-01T00:00:00Z" :=
  ⟨by decide, normalize_rows_as_of_shared c5_daily emptySnap c5_one_clock
    "2024-01-01T00:00:00Z" (fun _ => rfl) c5_row0 (by decide)⟩

/-- Key membership of the de-duplication dict. -/
theorem mem_keys_lastByDate (rows : List CanonRow) (k : String) :
    k ∈ (lastByDate rows).map Prod.fst ↔ ∃ r ∈ rows, r.date = k := by
  have h := mem_keys_foldl rows [] k
  simp only [List.map_nil, List.not_mem_nil, false_or] at h
  exact h

/-- C6: for every input sequence, snapshot and clock, the rows the normalizer
publishes for a date are exactly the last-built row with that date: when two
points resolve to the same date, the output holds exactly one row for it,
equal to the row of the point that appears later in source iteration order. -/
theorem normalize_rows_last_wins (daily : List DailyPoint) (snap : Snap)
    (clock : Nat → String) (d : String) :
    (normalize_rows daily snap clock).filter (fun r => r.date == d) =
      ((buildRows snap clock daily 0).filter (fun r => r.date == d)).getLast?.toList := by
  simp only [normalize_rows]
  set rows := buildRows snap clock daily 0 with hrows
  set m := lastByDate rows with hm
  set sk := (m.map Prod.fst).insertionSort SLe with hsk
  have hperm : sk.Perm (m.map Prod.fst) := List.perm_insertionSort SLe _
  have hnk : (m.map Prod.fst).Nodup := nodup_keys_foldl rows [] (by simp)
  have hns : sk.Nodup := hperm.nodup_iff.mpr hnk
  rw [List.filter_filterMap]
  have hcong : ∀ k ∈ sk, Option.filter (fun r => r.date == d) (lookupRow m k) =
      if k = d then lookupRow m d else none := by
    intro k hk
    obtain ⟨r, hr⟩ := lookupRow_isSome_of_mem (hperm.mem_iff.mp hk)
    have hdate : r.date = k :=
      pairs_foldl rows [] (by simp) (k, r) (lookupRow_some_mem hr)
    rw [hr]
    by_cases hkd : k = d
    · subst hkd
      rw [if_pos rfl, hr]
      simp [Option.filter, hdate]
    · rw [if_neg hkd]
      simp [Option.filter, hdate, hkd]
  rw [List.filterMap_congr hcong]
  rw [filterMap_ite_single sk d (lookupRow m d) hns]
  rw [hm, lookupRow_lastByDate]
  by_cases hd : d ∈ sk
  · rw [if_pos hd]
  · rw [if_neg hd]
    have hdk : d ∉ (lastByDate rows).map Prod.fst := fun hc2 => by
      rw [← hm] at hc2
      exact hd (hperm.mem_iff.mpr hc2)
    cases hg : (rows.filter (fun r => r.date == d)).getLast? with
    | none => rfl
    | some r =>
      exfalso
      apply hdk
      have hl : lookupRow (lastByDate rows) d = some r := by
        rw [lookupRow_lastByDate, hg]
      exact List.mem_map.mpr ⟨(d, r), lookupRow_some_mem hl, rfl⟩

/-- C7: for every input, the normalizer emits exactly one row per distinct
built date: the output's date column is a permutation of the distinct dates
of the built rows (so each such date appears exactly once), it is strictly
ascending in the code-point order used on the ISO date strings, and the
number of output rows equals the number of distinct dates. -/
theorem normalize_rows_sorted_unique (daily : List DailyPoint) (snap : Snap)
    (clock : Nat → String) :
    ((normalize_rows daily snap clock).map CanonRow.date).Perm
        (((buildRows snap clock daily 0).map CanonRow.date).dedup) ∧
    ((normalize_rows daily snap clock).map CanonRow.date).Pairwise
        (fun a b => SLe a b ∧ a ≠ b) ∧
    (normalize_rows daily snap clock).length =
      (((buildRows snap clock daily 0).map CanonRow.date).dedup).length := by
  simp only [normalize_rows]
  set rows := buildRows snap clock daily 0 with hrows
  set m := lastByDate rows with hm
  set sk := (m.map Prod.fst).insertionSort SLe with hsk
  have hperm : sk.Perm (m.map Prod.fst) := List.perm_insertionSort SLe _
  have hnk : (m.map Prod.fst).Nodup := nodup_keys_foldl rows [] (by simp)
  have hns : sk.Nodup := hperm.nodup_iff.mpr hnk
  have hall : ∀ k ∈ sk, ∃ r, lookupRow m k = some r ∧ (r : CanonRow).date = k := by
    intro k hk
    obtain ⟨r, hr⟩ := lookupRow_isSome_of_mem (hperm.mem_iff.mp hk)
    exact ⟨r, hr, pairs_foldl rows [] (by simp) (k, r) (lookupRow_some_mem hr)⟩
  have hmap : (sk.filterMap (fun k => lookupRow m k)).map CanonRow.date = sk :=
    filterMap_lookup_map_date m sk hall
  have hmem : ∀ k, k ∈ m.map Prod.fst ↔ k ∈ (rows.map CanonRow.date).dedup := by
    intro k
    rw [List.mem_dedup, hm, mem_keys_lastByDate]
    simp [List.mem_map]
  have hperm2 : sk.Perm ((rows.map CanonRow.date).dedup) := by
    rw [List.perm_ext_iff_of_nodup hns (List.nodup_dedup _)]
    intro k
    rw [hperm.mem_iff]
    exact hmem k
  refine ⟨?_, ?_, ?_⟩
  · rw [hmap]
    exact hperm2
  · rw [hmap]
    exact List.Pairwise.imp₂ (fun a b h1 h2 => ⟨h1, h2⟩)
      (List.sorted_insertionSort SLe (m.map Prod.fst)) hns
  · have hlen : (sk.filterMap (fun k => lookupRow m k)).length = sk.length := by
      have := congrArg List.length hmap
      rwa [List.length_map] at this
    rw [hlen]
    exact hperm2.length_eq

/-- C9: on the spec's scenario array
`[(openInterest "10", dayNtlVlm "5"), (openInterest "20", dayNtlVlm "15")]`
the summed totals are `open_interest_usd = 30.0` and `volume24h_usd = 20.0`
(the decimal `⟨30, 0⟩` denotes 30.0, `⟨20, 0⟩` denotes 20.0). -/
theorem sum_asset_ctxs_scenario :
    sum_asset_ctxs [⟨"10", "5"⟩, ⟨"20", "15"⟩] = some (⟨30, 0⟩, ⟨20, 0⟩) :=
  rfl

/-- When every point parses to a day before the cutoff the filter empties. -/
theorem build_rows_filter_all_old (cutoff : Int) (snap : Snap) (as_of : String)
    (daily : List BRow)
    (hall : ∀ r ∈ daily, ∃ days, brow_days r = some days ∧ days < cutoff) :
    build_rows_filter cutoff snap as_of daily = some [] := by
  induction daily with
  | nil => rfl
  | cons r rest ih =>
    obtain ⟨days, hd, hlt⟩ := hall r (List.mem_cons_self r rest)
    rw [build_rows_filter, hd,
      ih (fun r2 h2 => hall r2 (List.mem_cons_of_mem _ h2))]
    simp [hlt]

/-- A successful non-empty filter exhibits an in-window point. -/
theorem build_rows_filter_nonempty (cutoff : Int) (snap : Snap) (as_of : String) :
    ∀ (daily : List BRow) (out : List OutRow),
      build_rows_filter cutoff snap as_of daily = some out → out ≠ [] →
      ∃ r ∈ daily, ∃ days, brow_days r = some days ∧ cutoff ≤ days := by
  intro daily
  induction daily with
  | nil =>
    intro out h hne
    rw [build_rows_filter] at h
    cases h
    exact absurd rfl hne
  | cons r rest ih =>
    intro out h hne
    cases hbd : brow_days r with
    | none =>
      rw [build_rows_filter, hbd] at h
      cases h
    | some days =>
      rw [build_rows_filter, hbd] at h
      cases hrec : build_rows_filter cutoff snap as_of rest with
      | none =>
        rw [hrec] at h
        cases h
      | some shaped =>
        rw [hrec] at h
        by_cases hlt : days < cutoff
        · have hout : shaped = out := by
            simpa [hlt] using h
          obtain ⟨r2, h2, hd2⟩ := ih shaped hrec (fun hh => hne (hout ▸ hh))
          exact ⟨r2, List.mem_cons_of_mem _ h2, hd2⟩
        · exact ⟨r, List.mem_cons_self _ _, days, hbd, by omega⟩

/-- C10: `build_csv` is partial at its public interface: a non-empty input
whose points all parse to days strictly before the rolling cutoff filters to
the empty list, and `build_csv` raises at the `rows[0]` header access
instead of returning a header-only CSV; conversely, whenever it returns a
CSV at all, at least one input point lies inside the rolling window. -/
theorem build_csv_empty_window_raises (todayDays : Int) (rollingDays : Nat)
    (daily : List BRow) (snap : Snap) (as_of : String) :
    (daily ≠ [] →
      (∀ r ∈ daily, ∃ days, brow_days r = some days ∧
        days < todayDays - (rollingDays : Int)) →
      build_csv todayDays rollingDays daily snap as_of = none) ∧
    (∀ out, build_csv todayDays rollingDays daily snap as_of = some out →
      ∃ r ∈ daily, ∃ days, brow_days r = some days ∧
        todayDays - (rollingDays : Int) ≤ days) := by
  constructor
  · intro _ hall
    rw [build_csv, build_rows_filter_all_old _ snap as_of daily hall]
    rfl
  · intro out hout
    rw [build_csv] at hout
    cases hbf : build_rows_filter (todayDays - (rollingDays : Int)) snap as_of daily with
    | none =>
      rw [hbf] at hout
      cases hout
    | some shaped =>
      rw [hbf] at hout
      have hsh : ¬ shaped.isEmpty = true := by
        intro hempty
        simp [hempty] at hout
      refine build_rows_filter_nonempty _ snap as_of daily shaped hbf ?_
      intro hnil
      exact hsh (by rw [hnil]; rfl)

/-- Witness for C10: the all-old input raises (returns `none`), and the
in-window input returns a CSV, exhibiting its in-window point. -/
theorem build_csv_empty_window_raises_witness :
    build_csv 20000 400 c10_old emptySnap "T" = none ∧
    (∃ r ∈ c10_new, ∃ days, brow_days r = some days ∧
      (20000 : Int) - ((400 : Nat) : Int) ≤ days) :=
  ⟨(build_csv_empty_window_raises 20000 400 c10_old emptySnap "T").1 (by simp [c10_old])
      (by
        intro r hr
        rw [c10_old, List.mem_singleton] at hr
        subst hr
        exact ⟨0, rfl, by decide⟩),
   (build_csv_empty_window_raises 20000 400 c10_new emptySnap "T").2
      [⟨"2023-11-14", none, none, none, none, none, none, none, "T"⟩] rfl⟩
